import Mathlib

/-!
Verification development for the audiobook generation pipeline
(web-ui/src/app/api/generate/route.ts and the front-end ETA logic).

Text is modelled as a list of characters. JavaScript string operations
used by the route are embedded directly: `split` on one-or-more newline
characters, `trim`-emptiness checks, `replace`, `toLowerCase`,
`substring`, `padStart`, and decimal rendering of numbers. JavaScript
number arithmetic in the progress and ETA computations is embedded over
the exact rationals, with `Math.round x` as the floor of `x + 1/2` and
`Math.ceil` as the integer ceiling.
-/

/-- Whitespace characters recognised by the JavaScript `trim` used in the
route (ASCII whitespace plus no-break space; the route only compares the
result against the empty string). -/
def jsWhitespace (c : Char) : Bool :=
  c = ' ' || c = '\t' || c = '\n' || c = '\r' || c = '\x0b' || c = '\x0c' || c = '\xa0'

/-- The truthiness test `!s.trim()` from the route: the trimmed string is
empty exactly when every character is whitespace. -/
def allWS (s : List Char) : Bool := s.all jsWhitespace

/-- Auxiliary for splitting on runs of one-or-more newlines, carrying the
reversed current segment and whether the scan is inside a newline run (a
newline inside a run extends the same separator instead of producing an
empty segment). -/
def splitNewlinesAux : List Char → Bool → List Char → List (List Char)
  | [], _, acc => [acc.reverse]
  | c :: cs, inRun, acc =>
    if c = '\n' then
      if inRun then splitNewlinesAux cs true acc
      else acc.reverse :: splitNewlinesAux cs true []
    else splitNewlinesAux cs false (c :: acc)

/-- The JavaScript `text.split` on the regular expression matching
one-or-more newline characters, as used at route.ts line 114. -/
def splitNewlines (s : List Char) : List (List Char) := splitNewlinesAux s false []

/-- A chapter handed to the pipeline: title and plain text. -/
structure Chapter where
  title : List Char
  text : List Char
deriving DecidableEq, Repr, Inhabited

/-- One chunk-synthesis task, as pre-computed by processChapters. -/
structure ChunkTask where
  text : List Char
  chapterTitle : List Char
  chapterIndex : Nat
  chunkIndex : Nat
deriving DecidableEq, Repr, Inhabited

/-- The chunking loop of processChapters (route.ts lines 115-142) over the
paragraphs of one chapter: `currentChunk` accumulates paragraphs, each
followed by one space; when appending a paragraph would push the
accumulated text over 2000 characters the current accumulation is emitted
first (if its trimmed form is nonempty) and the paragraph starts a fresh
accumulation.  Returns the emitted chunk texts paired with their chunk
index within the chapter. -/
def chunkParagraphsAux : List (List Char) → List Char → Nat → List (List Char × Nat)
  | [], currentChunk, chunkIndex =>
    if allWS currentChunk then [] else [(currentChunk, chunkIndex)]
  | p :: ps, currentChunk, chunkIndex =>
    if (currentChunk ++ p).length > 2000 then
      if allWS currentChunk then
        chunkParagraphsAux ps (p ++ [' ']) chunkIndex
      else
        (currentChunk, chunkIndex) :: chunkParagraphsAux ps (p ++ [' ']) (chunkIndex + 1)
    else
      chunkParagraphsAux ps (currentChunk ++ p ++ [' ']) chunkIndex

/-- Chunking of one chapter: split on newline runs, then run the
accumulation loop starting from an empty chunk and chunk index 0. -/
def chunkChapter (c : Chapter) : List (List Char × Nat) :=
  chunkParagraphsAux (splitNewlines c.text) [] 0

/-- The chapter loop of processChapters (route.ts lines 107-144):
whitespace-only chapters are skipped but still advance the chapter
counter; each emitted chunk becomes a task stamped with the chapter title
and the running chapter index. -/
def buildChunksAux : List Chapter → Nat → List ChunkTask
  | [], _ => []
  | ch :: rest, gi =>
    if allWS ch.text then
      buildChunksAux rest (gi + 1)
    else
      ((chunkChapter ch).map (fun tc => ChunkTask.mk tc.1 ch.title gi tc.2))
        ++ buildChunksAux rest (gi + 1)

/-- The flat, chapter-ordered list of chunk tasks of a job; a task at
position i in this list has global order index i. -/
def buildChunks (chapters : List Chapter) : List ChunkTask :=
  buildChunksAux chapters 0

/-- Characters kept by the sanitiser regular expression (letters and
digits, case-insensitive); every other character becomes an underscore. -/
def keepAlphanum (c : Char) : Bool :=
  ('a' ≤ c && c ≤ 'z') || ('A' ≤ c && c ≤ 'Z') || ('0' ≤ c && c ≤ '9')

/-- One step of the replace in generateAndSaveChunk line 74. -/
def replaceNonAlphanum (c : Char) : Char := if keepAlphanum c then c else '_'

/-- JavaScript toLowerCase restricted to the ASCII range that can occur
after the sanitising replace. -/
def jsToLower (c : Char) : Char :=
  if 'A' ≤ c && c ≤ 'Z' then Char.ofNat (c.toNat + 32) else c

/-- The sanitised chapter title of generateAndSaveChunk line 74:
replace non-alphanumerics with underscores, lower-case, take the first
50 characters. -/
def sanitizeTitle (t : List Char) : List Char :=
  ((t.map replaceNonAlphanum).map jsToLower).take 50

/-- Decimal digits of a natural number, most significant first, with a
fuel argument for structural recursion. -/
def natDecimalAux : Nat → Nat → List Char
  | 0, _ => []
  | fuel + 1, n =>
    if n < 10 then [Nat.digitChar n]
    else natDecimalAux fuel (n / 10) ++ [Nat.digitChar (n % 10)]

/-- The JavaScript rendering String of a nonnegative integer. -/
def natDecimal (n : Nat) : List Char := natDecimalAux (n + 1) n

/-- JavaScript padStart to width 3 with zeros. -/
def padStart3 (s : List Char) : List Char :=
  List.replicate (3 - s.length) '0' ++ s

/-- The deterministic chunk artifact filename of generateAndSaveChunk
line 75: zero-padded chapter index, sanitised title, chunk index. -/
def chunkFilename (t : ChunkTask) : List Char :=
  padStart3 (natDecimal t.chapterIndex) ++ '_' :: sanitizeTitle t.chapterTitle
    ++ ("_part").data ++ natDecimal t.chunkIndex ++ (".mp3").data

/-- The artifact path (path.join of the book directory and the chunk
filename, line 76). -/
def chunkPath (bookDir : List Char) (t : ChunkTask) : List Char :=
  bookDir ++ '/' :: chunkFilename t

/-- JavaScript string comparison (less-than) by code unit, used to state
the lexical-sort claim about filenames. -/
def strLtB : List Char → List Char → Bool
  | [], [] => false
  | [], _ :: _ => true
  | _ :: _, [] => false
  | a :: as, b :: bs =>
    if a < b then true else if b < a then false else strLtB as bs

/-- JavaScript Math.round over the exact value (round half toward
positive infinity). -/
def jsRound (q : ℚ) : ℤ := ⌊q + 1 / 2⌋

/-- Events enqueued on the response stream, one JSON line per event. -/
inductive JobEvent
  | progress (chapterIndex totalChapters : Nat) (chapterTitle : List Char)
      (progressPct : ℤ) (processedCharacters totalCharacters : Nat)
  | status (message : List Char)
  | result (success : Bool)
  | error (message : List Char)
deriving DecidableEq, Repr

/-- The error message of the explicit aborted-throws: the task-entry
check of generateAndSaveChunk line 68 and the final signal check of
processChapters line 191. -/
def abortMsg : List Char := ("Generation aborted").data

/-- The message of the CanceledError with which axios rejects a network
call whose abort signal fires while the call is in flight; the kokoro
client rethrows it unchanged. -/
def canceledMsg : List Char := ("canceled").data

/-- The status message sent before merging. -/
def mergeMsg : List Char := ("Merging audio files...").data

/-- totalCharacters of processChapters line 104: the sum of the raw text
lengths of all chapters, whitespace-only chapters included. -/
def totalCharactersOf (chapters : List Chapter) : Nat :=
  (chapters.map (fun c => c.text.length)).sum

/-- Whether the abort signal is set, in a run where the external trigger
fires once `k` chunk completions have occurred (`none` = never). -/
def signalAbortedAt : Option Nat → Nat → Bool
  | none, _ => false
  | some k, completed => k ≤ completed

/-- The per-task bookkeeping of processChapters lines 153-187, serialised
in task order (the JavaScript event loop serialises the bookkeeping; the
progress fraction and the final counter values do not depend on the
completion order).  Each task first checks the abort signal and returns
without work when it is set; otherwise it completes, the shared counters
advance, and one progress event is emitted with
Math.round of completedChunks / totalChunks times 100.
Returns the emitted events and the final counter values. -/
def runTasksSeq (totalChapters totalChars n : Nat) (abortAfter : Option Nat) :
    List ChunkTask → Nat → Nat → List JobEvent × Nat × Nat
  | [], completed, processed => ([], completed, processed)
  | t :: rest, completed, processed =>
    if signalAbortedAt abortAfter completed then
      runTasksSeq totalChapters totalChars n abortAfter rest completed processed
    else
      let completed1 := completed + 1
      let processed1 := processed + t.text.length
      let ev := JobEvent.progress (t.chapterIndex + 1) totalChapters t.chapterTitle
        (jsRound ((completed1 : ℚ) / (n : ℚ) * 100)) processed1 totalChars
      let r := runTasksSeq totalChapters totalChars n abortAfter rest completed1 processed1
      (ev :: r.1, r.2)

/-- The event trace of one job as driven by the POST handler
(route.ts lines 217-266), for the runs in which every abort observation
happens at a task-start check (line 155) or via the aborted-throws
(generateAndSaveChunk line 68, the final check of line 191): run all
tasks; if the abort signal was observed the thrown Generation aborted
error is caught and surfaces as a terminal error event; otherwise the
merge status and the result event follow.  A run in which the signal
instead fires while a synthesis network call is in flight is modelled by
handlerEventsInFlightAbort below. -/
def handlerEvents (chapters : List Chapter) (abortAfter : Option Nat) : List JobEvent :=
  let tasks := buildChunks chapters
  let r := runTasksSeq chapters.length (totalCharactersOf chapters) tasks.length abortAfter tasks 0 0
  if signalAbortedAt abortAfter r.2.1 then
    r.1 ++ [JobEvent.error abortMsg]
  else
    r.1 ++ [JobEvent.status mergeMsg, JobEvent.result true]

/-- The event trace of a job in which the cancellation signal fires after
k chunk completions while a synthesis network call is awaiting the
backend (so k is less than the task count): the k completed tasks have
emitted their progress events; the aborted axios call rejects with a
CanceledError whose message is canceled, the Promise.all of
processChapters line 189 rejects with it before the final signal check of
line 191 can run, and the catch block of the POST handler emits that
message as the terminal error event. -/
def handlerEventsInFlightAbort (chapters : List Chapter) (k : Nat) : List JobEvent :=
  let tasks := buildChunks chapters
  let r := runTasksSeq chapters.length (totalCharactersOf chapters) tasks.length (some k) tasks 0 0
  r.1 ++ [JobEvent.error canceledMsg]

/-- The progress percentage carried by a progress event. -/
def progressPctOf : JobEvent → Option ℤ
  | JobEvent.progress _ _ _ p _ _ => some p
  | _ => none

/-- The processedCharacters field of a progress event. -/
def processedOf : JobEvent → Option Nat
  | JobEvent.progress _ _ _ _ pc _ => some pc
  | _ => none

/-- The totalCharacters field of a progress event. -/
def totalCharsOf : JobEvent → Option Nat
  | JobEvent.progress _ _ _ _ _ tc => some tc
  | _ => none

/-- The progress percentages of a trace, in emission order. -/
def progressValues (evts : List JobEvent) : List ℤ := evts.filterMap progressPctOf

/-- The processedCharacters values of a trace, in emission order. -/
def processedValues (evts : List JobEvent) : List Nat := evts.filterMap processedOf

/-- Recogniser for result events. -/
def isResultEvent : JobEvent → Bool
  | JobEvent.result _ => true
  | _ => false

/-- Recogniser for error events. -/
def isErrorEvent : JobEvent → Bool
  | JobEvent.error _ => true
  | _ => false

/-- One write into the pre-sized result slot array of processChapters
line 170: the task at global order index i stores its artifact path at
index i. -/
def writeSlot (slots : Nat → Option (List Char)) (i : Nat) (v : List Char) :
    Nat → Option (List Char) :=
  fun j => if j = i then some v else slots j

/-- Replay of the slot writes in an arbitrary completion order: the task
with global order index i writes chunkPath of tasks at position i into
slot i. -/
def runCompletions (bookDir : List Char) (tasks : List ChunkTask) :
    List Nat → (Nat → Option (List Char)) → Nat → Option (List Char)
  | [], slots => slots
  | i :: rest, slots =>
    runCompletions bookDir tasks rest
      (writeSlot slots i (chunkPath bookDir (tasks.getD i default)))

/-- The sequence handed to the merge step (route.ts line 193): the slot
array read in index order after all completions have been replayed. -/
def assembledPaths (bookDir : List Char) (tasks : List ChunkTask) (order : List Nat) :
    List (Option (List Char)) :=
  (List.range tasks.length).map (runCompletions bookDir tasks order (fun _ => none))

/-- State of the concurrency-limited dispatcher: task indices still
queued, currently running, and finished, plus the number of synthesis
calls made per task index. -/
structure DispatchState where
  queued : List Nat
  running : List Nat
  finished : List Nat
  calls : Nat → Nat

/-- Initial dispatcher state for n tasks: all queued in submission order,
nothing running, no synthesis calls made. -/
def initDispatch (n : Nat) : DispatchState :=
  DispatchState.mk (List.range n) [] [] (fun _ => 0)

/-- Modelled from the spec: the scheduling semantics of the p-limit
library used at route.ts line 148 (the library itself is not under src).
A queued task may start only while fewer than `limit` tasks are running,
and starting it performs its one synthesis call; a running task may
finish at any time, so completion order is arbitrary. -/
inductive DispatchStep (limit : Nat) : DispatchState → DispatchState → Prop
  | start (s : DispatchState) (i : Nat) (rest : List Nat)
      (hq : s.queued = i :: rest) (hlt : s.running.length < limit) :
      DispatchStep limit s
        (DispatchState.mk rest (i :: s.running) s.finished
          (fun j => if j = i then s.calls j + 1 else s.calls j))
  | finish (s : DispatchState) (i : Nat) (hi : i ∈ s.running) :
      DispatchStep limit s
        (DispatchState.mk s.queued (s.running.erase i) (i :: s.finished) s.calls)

/-- Reachability under the dispatcher with the concurrency limit 4 used
by processChapters. -/
def DispatchReachable (n : Nat) (s : DispatchState) : Prop :=
  Relation.ReflTransGen (DispatchStep 4) (initDispatch n) s

/-- The front-end ETA computation (handleGenerate): guarded by the
truthiness of processedCharacters and totalCharacters, then by elapsed
time above 5 seconds and positive processedCharacters; the estimate is
remaining characters over characters-per-second, reported in ceiled
minutes when above 60 seconds, otherwise in ceiled seconds.  Returns
none when no estimate is produced, otherwise (true, m) for m minutes or
(false, s) for s seconds. -/
def etaEstimate (elapsedSeconds : ℚ) (processedCharacters totalCharacters : Nat) :
    Option (Bool × ℤ) :=
  if processedCharacters ≠ 0 ∧ totalCharacters ≠ 0 ∧
      5 < elapsedSeconds ∧ 0 < processedCharacters then
    let charsPerSec : ℚ := (processedCharacters : ℚ) / elapsedSeconds
    let remainingSeconds : ℚ := ((totalCharacters : ℚ) - (processedCharacters : ℚ)) / charsPerSec
    if 60 < remainingSeconds then some (true, ⌈remainingSeconds / 60⌉)
    else some (false, ⌈remainingSeconds⌉)
  else none

/-- The remaining-seconds formula as written in the specification:
remainingSeconds = (totalCharacters - completedCharacters) /
(completedCharacters / elapsedSeconds).  Used to compare the code path
against the spec formula. -/
def etaSpecRemaining (elapsedSeconds : ℚ) (processedCharacters totalCharacters : Nat) : ℚ :=
  ((totalCharacters : ℚ) - (processedCharacters : ℚ)) /
    ((processedCharacters : ℚ) / elapsedSeconds)

/-- Running partial sums of a list of numbers, starting from an
accumulator. -/
def partialSumsAux : List Nat → Nat → List Nat
  | [], _ => []
  | x :: xs, acc => (acc + x) :: partialSumsAux xs (acc + x)

/-- Running partial sums of a list of numbers. -/
def partialSums (l : List Nat) : List Nat := partialSumsAux l 0

/-- Invariant of the dispatcher: never more than 4 running, the three
index lists partition the task indices, and the synthesis-call count is
0 for queued and unknown indices and 1 for running and finished ones. -/
def DispatchInv (n : Nat) (s : DispatchState) : Prop :=
  s.running.length ≤ 4 ∧
  (s.queued ++ s.running ++ s.finished).Perm (List.range n) ∧
  (∀ i ∈ s.queued, s.calls i = 0) ∧
  (∀ i ∈ s.running, s.calls i = 1) ∧
  (∀ i ∈ s.finished, s.calls i = 1) ∧
  (∀ i, i ∉ s.queued → i ∉ s.running → i ∉ s.finished → s.calls i = 0)

/-- An uploaded file: name and contents. -/
structure UploadFile where
  name : List Char
  content : List Char
deriving DecidableEq

/-- The epub filename suffix tested at route.ts line 33. -/
def epubSuffix : List Char := (".epub").data

/-- Title given to a non-epub uploaded file. -/
def fullTextTitle : List Char := ("Full Text").data

/-- Title given to direct text input. -/
def textInputTitle : List Char := ("Text Input").data

/-- Filename for direct text input (the Date.now suffix of route.ts
line 48 is abstracted to a constant). -/
def textInputFilename : List Char := ("text-input").data

/-- JavaScript truthiness of the text form field: null or the empty
string is falsy. -/
def jsFalsyText : Option (List Char) → Bool
  | none => true
  | some s => s.isEmpty

/-- The request rejection test of POST line 206: rejected exactly when no
file is present and the text field is absent or empty. -/
def rejectsRequest (file : Option UploadFile) (textInput : Option (List Char)) : Bool :=
  file.isNone && jsFalsyText textInput

/-- The final path component of a file name (model of the path.parse
base name). -/
def lastComponent (name : List Char) : List Char :=
  (name.reverse.takeWhile (fun c => c ≠ '/')).reverse

/-- Strip the last extension from a base name (model of the name field
of path.parse). -/
def stripLastExt (s : List Char) : List Char :=
  if ('.' ∈ s.drop 1) then ((s.reverse.dropWhile (fun c => c ≠ '.')).drop 1).reverse else s

/-- parseInput (route.ts lines 21-52): a present file is parsed (epub via
the external parser, otherwise as one full-text chapter) and the text
field is never consulted; with no file, a truthy text field becomes one
chapter; otherwise no chapters.  The external epub parser is a
parameter. -/
def parseInputModel (epubParse : List Char → List Chapter)
    (file : Option UploadFile) (textInput : Option (List Char)) :
    List Chapter × List Char :=
  match file with
  | some f =>
    (if epubSuffix.isSuffixOf f.name then epubParse f.content
     else [Chapter.mk fullTextTitle f.content],
     stripLastExt (lastComponent f.name))
  | none =>
    match textInput with
    | some t =>
      if t.isEmpty then ([], []) else ([Chapter.mk textInputTitle t], textInputFilename)
    | none => ([], [])

/-! ## Helper lemmas -/

theorem splitNewlinesAux_no_newline (s : List Char) :
    ∀ (b : Bool) (acc : List Char), '\n' ∉ s →
      splitNewlinesAux s b acc = [acc.reverse ++ s] := by
  induction s with
  | nil => intro b acc _; simp [splitNewlinesAux]
  | cons x s ih =>
    intro b acc hx
    have hxne : ¬ x = '\n' := fun h => hx (h ▸ List.mem_cons_self x s)
    rw [splitNewlinesAux, if_neg hxne, ih false (x :: acc) (fun h => hx (List.mem_cons_of_mem x h))]
    simp

theorem splitNewlinesAux_segment (s : List Char) :
    ∀ (b : Bool) (acc t : List Char), '\n' ∉ s → (b = false ∨ s ≠ []) →
      splitNewlinesAux (s ++ '\n' :: t) b acc =
        (acc.reverse ++ s) :: splitNewlinesAux t true [] := by
  induction s with
  | nil =>
    intro b acc t _ hb
    have hbf : b = false := by
      rcases hb with h | h
      · exact h
      · exact absurd rfl h
    subst hbf
    simp [splitNewlinesAux]
  | cons x s ih =>
    intro b acc t hx _
    have hxne : ¬ x = '\n' := fun h => hx (h ▸ List.mem_cons_self x s)
    rw [List.cons_append, splitNewlinesAux, if_neg hxne,
      ih false (x :: acc) t (fun h => hx (List.mem_cons_of_mem x h)) (Or.inl rfl)]
    simp

theorem splitNewlines_two (p1 p2 : List Char) (h1 : '\n' ∉ p1) (h2 : '\n' ∉ p2) :
    splitNewlines (p1 ++ '\n' :: p2) = [p1, p2] := by
  rw [splitNewlines, splitNewlinesAux_segment p1 false [] p2 h1 (Or.inl rfl),
    splitNewlinesAux_no_newline p2 true [] h2]
  simp

theorem splitNewlines_three (p1 p2 p3 : List Char)
    (h1 : '\n' ∉ p1) (h2 : '\n' ∉ p2) (h3 : '\n' ∉ p3) (hne : p2 ≠ []) :
    splitNewlines (p1 ++ '\n' :: (p2 ++ '\n' :: p3)) = [p1, p2, p3] := by
  rw [splitNewlines, splitNewlinesAux_segment p1 false [] (p2 ++ '\n' :: p3) h1 (Or.inl rfl),
    splitNewlinesAux_segment p2 true [] p3 h2 (Or.inr hne),
    splitNewlinesAux_no_newline p3 true [] h3]
  simp

theorem allWS_eq_false {s : List Char} {c : Char}
    (hc : c ∈ s) (hw : jsWhitespace c = false) : allWS s = false := by
  simp only [allWS]
  rw [List.all_eq_false]
  exact ⟨c, hc, by simp [hw]⟩

theorem runCompletions_apply (bookDir : List Char) (tasks : List ChunkTask)
    (order : List Nat) (slots : Nat → Option (List Char)) (i : Nat) :
    runCompletions bookDir tasks order slots i =
      if i ∈ order then some (chunkPath bookDir (tasks.getD i default)) else slots i := by
  induction order generalizing slots with
  | nil => simp [runCompletions]
  | cons j rest ih =>
    simp only [runCompletions]
    rw [ih]
    by_cases hir : i ∈ rest
    · simp [hir]
    · by_cases hij : i = j
      · subst hij
        simp [writeSlot, hir]
      · simp [writeSlot, hij, hir]

/-! ## C10 -/

/-- C10: a request carrying both a file and a raw-text input is not
rejected; parseInput takes the file branch and never consults the text
field, so the parsed chapters are those of the file alone. -/
theorem c10_file_precedence (epubParse : List Char → List Chapter)
    (f : UploadFile) (t : Option (List Char)) :
    rejectsRequest (some f) t = false ∧
    parseInputModel epubParse (some f) t = parseInputModel epubParse (some f) none ∧
    (parseInputModel epubParse (some f) t).1 =
      (if epubSuffix.isSuffixOf f.name then epubParse f.content
       else [Chapter.mk fullTextTitle f.content]) := by
  exact ⟨rfl, rfl, rfl⟩

/-! ## C5 -/

/-- C5: an ETA is produced only when elapsed time exceeds 5 seconds and
the completed character count is positive, and when produced it equals
the spec formula, reported in ceiled whole minutes when the remaining
seconds exceed 60 and in ceiled whole seconds otherwise. -/
theorem c5_eta_estimate (elapsedSeconds : ℚ) (processedCharacters totalCharacters : Nat)
    (r : Bool × ℤ)
    (h : etaEstimate elapsedSeconds processedCharacters totalCharacters = some r) :
    5 < elapsedSeconds ∧ 0 < processedCharacters ∧
    r = (if 60 < etaSpecRemaining elapsedSeconds processedCharacters totalCharacters then
          ((true : Bool),
            ⌈etaSpecRemaining elapsedSeconds processedCharacters totalCharacters / 60⌉)
         else
          ((false : Bool),
            ⌈etaSpecRemaining elapsedSeconds processedCharacters totalCharacters⌉)) := by
  unfold etaEstimate at h
  split at h
  · rename_i hcond
    obtain ⟨hp, ht, he, hp2⟩ := hcond
    refine ⟨he, hp2, ?_⟩
    dsimp only at h
    unfold etaSpecRemaining
    split at h <;> rename_i hrs
    · rw [if_pos hrs]
      exact (Option.some_inj.mp h).symm
    · rw [if_neg hrs]
      exact (Option.some_inj.mp h).symm
  · exact absurd h (by simp)

/-- Witness for C5 at elapsed 10 seconds, 50 of 150 characters done:
the estimate is 20 seconds. -/
theorem c5_eta_estimate_witness :
    5 < (10 : ℚ) ∧ 0 < 50 ∧
    (((false : Bool), (20 : ℤ)) : Bool × ℤ) =
      (if 60 < etaSpecRemaining 10 50 150 then
        ((true : Bool), ⌈etaSpecRemaining 10 50 150 / 60⌉)
       else
        ((false : Bool), ⌈etaSpecRemaining 10 50 150⌉)) :=
  c5_eta_estimate 10 50 150 ((false : Bool), (20 : ℤ)) (by norm_num [etaEstimate])

/-! ## C1 -/

/-- C1: in a run where no task fails and cancellation never triggers, the
assembled artifact sequence handed to merge equals the flattened task
list in global order, for every completion order of the tasks -- each
task writes its path at its own index, so assembly is invariant under
completion order. -/
theorem c1_assembled_order_invariant (chapters : List Chapter) (bookDir : List Char)
    (order : List Nat)
    (hperm : order.Perm (List.range (buildChunks chapters).length)) :
    assembledPaths bookDir (buildChunks chapters) order =
      (buildChunks chapters).map (fun t => some (chunkPath bookDir t)) := by
  apply List.ext_getElem
  · simp [assembledPaths]
  · intro i h1 h2
    have hn : i < (buildChunks chapters).length := by
      simpa [assembledPaths] using h1
    have hmem : i ∈ order := hperm.mem_iff.mpr (List.mem_range.mpr hn)
    simp only [assembledPaths, List.getElem_map, List.getElem_range]
    rw [runCompletions_apply, if_pos hmem, List.getD_eq_getElem _ _ hn]

/-- Witness for C1: a two-task job assembled under the reversed
completion order. -/
theorem c1_assembled_order_invariant_witness :
    assembledPaths (("dir").data)
        (buildChunks [Chapter.mk (("T").data) (("a").data), Chapter.mk (("U").data) (("b").data)])
        [1, 0] =
      (buildChunks [Chapter.mk (("T").data) (("a").data), Chapter.mk (("U").data) (("b").data)]).map
        (fun t => some (chunkPath (("dir").data) t)) :=
  c1_assembled_order_invariant
    [Chapter.mk (("T").data) (("a").data), Chapter.mk (("U").data) (("b").data)]
    (("dir").data) [1, 0] (by decide)

/-! ## C2 -/

theorem chunkParagraphsAux_bound (allParas : List (List Char)) (ps : List (List Char)) :
    ∀ (cur : List Char) (k : Nat),
      (∀ p ∈ ps, p ∈ allParas) →
      (cur.length ≤ 2001 ∨ ∃ p ∈ allParas, cur = p ++ [' '] ∧ 2000 < p.length) →
      ∀ c ∈ chunkParagraphsAux ps cur k,
        c.1.length ≤ 2001 ∨ ∃ p ∈ allParas, c.1 = p ++ [' '] ∧ 2000 < p.length := by
  induction ps with
  | nil =>
    intro cur k _ hcur c hc
    simp only [chunkParagraphsAux] at hc
    split at hc
    · simp at hc
    · simp only [List.mem_singleton] at hc
      subst hc
      exact hcur
  | cons p ps ih =>
    intro cur k hsub hcur c hc
    have hpall : p ∈ allParas := hsub p (List.mem_cons_self p ps)
    have hsub' : ∀ q ∈ ps, q ∈ allParas := fun q hq => hsub q (List.mem_cons_of_mem p hq)
    have hnew : (p ++ [' ']).length ≤ 2001 ∨
        ∃ q ∈ allParas, p ++ [' '] = q ++ [' '] ∧ 2000 < q.length := by
      by_cases hp : p.length ≤ 2000
      · left
        simp [hp]
      · right
        exact ⟨p, hpall, rfl, by omega⟩
    simp only [chunkParagraphsAux] at hc
    split at hc
    · split at hc
      · exact ih _ _ hsub' hnew c hc
      · rcases List.mem_cons.mp hc with h | h
        · subst h
          exact hcur
        · exact ih _ _ hsub' hnew c h
    · rename_i hlen
      refine ih _ _ hsub' ?_ c hc
      left
      simp only [gt_iff_lt, not_lt] at hlen
      simp only [List.length_append, List.length_singleton] at hlen ⊢
      omega

/-- C2 as amended: every chunk text is at most 2001 characters long (the
2000-character bound checked on the paragraph concatenation, plus the one
trailing separator space the code appends afterwards), except a chunk
formed from a single paragraph longer than 2000 characters, which is that
whole paragraph plus its trailing space and is never split. -/
theorem c2_chunk_bound (ch : Chapter) (c : List Char × Nat) (hc : c ∈ chunkChapter ch) :
    c.1.length ≤ 2001 ∨
      ∃ p ∈ splitNewlines ch.text, c.1 = p ++ [' '] ∧ 2000 < p.length := by
  refine chunkParagraphsAux_bound (splitNewlines ch.text) (splitNewlines ch.text)
    [] 0 (fun p hp => hp) ?_ c hc
  left
  simp

/-- Witness for C2 on a one-paragraph chapter. -/
theorem c2_chunk_bound_witness :
    ((("a ").data, 0) : List Char × Nat).1.length ≤ 2001 ∨
      ∃ p ∈ splitNewlines (("a").data),
        ((("a ").data, 0) : List Char × Nat).1 = p ++ [' '] ∧ 2000 < p.length :=
  c2_chunk_bound (Chapter.mk (("T").data) (("a").data)) ((("a ").data, 0)) (by decide)

/-- C2 fails as stated: a chapter of two paragraphs of 999 and 1000
characters (each individually at most 2000) produces a single chunk of
2001 characters, which exceeds the claimed 2000-character maximum without
being an oversized single paragraph. -/
theorem c2_counterexample :
    (∃ c ∈ chunkChapter (Chapter.mk (("T").data)
        (List.replicate 999 'a' ++ '\n' :: List.replicate 1000 'b')),
      2000 < c.1.length) ∧
    (∀ p ∈ splitNewlines (List.replicate 999 'a' ++ '\n' :: List.replicate 1000 'b'),
      p.length ≤ 2000) := by
  have hna : '\n' ∉ List.replicate 999 'a' := by
    intro h
    rw [List.mem_replicate] at h
    exact absurd h.2 (by decide)
  have hnb : '\n' ∉ List.replicate 1000 'b' := by
    intro h
    rw [List.mem_replicate] at h
    exact absurd h.2 (by decide)
  have hsplit := splitNewlines_two (List.replicate 999 'a') (List.replicate 1000 'b') hna hnb
  have hmema : 'a' ∈ ((List.replicate 999 'a' ++ [' ']) ++ List.replicate 1000 'b') ++ [' '] :=
    List.mem_append.mpr (Or.inl (List.mem_append.mpr (Or.inl (List.mem_append.mpr
      (Or.inl ((List.mem_replicate).mpr ⟨by decide, rfl⟩))))))
  have hws : allWS (((List.replicate 999 'a' ++ [' ']) ++ List.replicate 1000 'b') ++ [' ']) =
      false := allWS_eq_false hmema (by decide)
  have hchunks : chunkChapter (Chapter.mk (("T").data)
      (List.replicate 999 'a' ++ '\n' :: List.replicate 1000 'b')) =
      [((((List.replicate 999 'a' ++ [' ']) ++ List.replicate 1000 'b') ++ [' ']), 0)] := by
    rw [chunkChapter]
    dsimp only
    rw [hsplit]
    rw [chunkParagraphsAux, if_neg (by
      rw [List.nil_append, List.length_replicate]
      omega)]
    rw [List.nil_append]
    rw [chunkParagraphsAux, if_neg (by
      rw [List.length_append, List.length_append, List.length_replicate,
        List.length_replicate, List.length_singleton]
      omega)]
    rw [chunkParagraphsAux, if_neg (by rw [hws]; decide)]
  constructor
  · refine ⟨((((List.replicate 999 'a' ++ [' ']) ++ List.replicate 1000 'b') ++ [' ']), 0),
      ?_, ?_⟩
    · rw [hchunks]
      exact List.mem_singleton.mpr rfl
    · rw [List.length_append, List.length_append, List.length_append,
        List.length_replicate, List.length_replicate, List.length_singleton]
      omega
  · intro p hp
    rw [hsplit] at hp
    simp only [List.mem_cons, List.not_mem_nil, or_false] at hp
    rcases hp with h | h
    · rw [h, List.length_replicate]
      omega
    · rw [h, List.length_replicate]
      omega

/-! ## C7 -/

theorem chunkChapter_three900 (t p1 p2 p3 : List Char)
    (h1 : p1.length = 900) (h2 : p2.length = 900) (h3 : p3.length = 900)
    (hn1 : '\n' ∉ p1) (hn2 : '\n' ∉ p2) (hn3 : '\n' ∉ p3)
    (hw1 : allWS p1 = false) (hw3 : allWS p3 = false) :
    chunkChapter (Chapter.mk t (p1 ++ '\n' :: (p2 ++ '\n' :: p3))) =
      [(((p1 ++ [' ']) ++ p2) ++ [' '], 0), (p3 ++ [' '], 1)] := by
  have hne2 : p2 ≠ [] := by
    intro h
    rw [h] at h2
    exact absurd h2 (by decide)
  have hsplit := splitNewlines_three p1 p2 p3 hn1 hn2 hn3 hne2
  have hwcur : allWS (((p1 ++ [' ']) ++ p2) ++ [' ']) = false := by
    rw [allWS] at hw1 ⊢
    simp [List.all_append, hw1]
  have hw3cur : allWS (p3 ++ [' ']) = false := by
    rw [allWS] at hw3 ⊢
    simp [List.all_append, hw3]
  rw [chunkChapter]
  dsimp only
  rw [hsplit]
  rw [chunkParagraphsAux, if_neg (by
    rw [List.nil_append, h1]
    omega)]
  rw [List.nil_append]
  rw [chunkParagraphsAux, if_neg (by
    simp only [List.length_append, List.length_singleton, h1, h2]
    omega)]
  rw [chunkParagraphsAux, if_pos (by
    simp only [List.length_append, List.length_singleton, h1, h2, h3]
    omega), if_neg (by rw [hwcur]; decide)]
  rw [chunkParagraphsAux, if_neg (by rw [hw3cur]; decide)]

/-- C7 as amended: for a chapter of three 900-character paragraphs
separated by single newlines (each paragraph newline-free, the first and
third containing a non-whitespace character), the chunker yields exactly
two chunks: the first two paragraphs joined with their trailing
separator spaces (1802 characters) and the third paragraph with its
trailing space (901 characters) -- the code appends one space per
paragraph, so the lengths are 1802 and 901 rather than the claimed 1800
and 900. -/
theorem c7_three_paragraphs (t p1 p2 p3 : List Char)
    (h1 : p1.length = 900) (h2 : p2.length = 900) (h3 : p3.length = 900)
    (hn1 : '\n' ∉ p1) (hn2 : '\n' ∉ p2) (hn3 : '\n' ∉ p3)
    (hw1 : allWS p1 = false) (hw3 : allWS p3 = false) :
    chunkChapter (Chapter.mk t (p1 ++ '\n' :: (p2 ++ '\n' :: p3))) =
      [(((p1 ++ [' ']) ++ p2) ++ [' '], 0), (p3 ++ [' '], 1)] ∧
    (chunkChapter (Chapter.mk t (p1 ++ '\n' :: (p2 ++ '\n' :: p3)))).map
        (fun c => c.1.length) = [1802, 901] := by
  have hmain := chunkChapter_three900 t p1 p2 p3 h1 h2 h3 hn1 hn2 hn3 hw1 hw3
  refine ⟨hmain, ?_⟩
  rw [hmain]
  simp only [List.map_cons, List.map_nil, List.length_append, List.length_singleton,
    h1, h2, h3]

/-- Witness for C7 at three concrete 900-character paragraphs. -/
theorem c7_three_paragraphs_witness :
    chunkChapter (Chapter.mk (("T").data) (List.replicate 900 'a' ++ '\n' ::
        (List.replicate 900 'b' ++ '\n' :: List.replicate 900 'c'))) =
      [(((List.replicate 900 'a' ++ [' ']) ++ List.replicate 900 'b') ++ [' '], 0),
        (List.replicate 900 'c' ++ [' '], 1)] ∧
    (chunkChapter (Chapter.mk (("T").data) (List.replicate 900 'a' ++ '\n' ::
        (List.replicate 900 'b' ++ '\n' :: List.replicate 900 'c')))).map
        (fun c => c.1.length) = [1802, 901] :=
  c7_three_paragraphs (("T").data)
    (List.replicate 900 'a') (List.replicate 900 'b') (List.replicate 900 'c')
    (List.length_replicate 900 'a') (List.length_replicate 900 'b')
    (List.length_replicate 900 'c')
    (fun h => absurd ((List.mem_replicate).mp h).2 (by decide))
    (fun h => absurd ((List.mem_replicate).mp h).2 (by decide))
    (fun h => absurd ((List.mem_replicate).mp h).2 (by decide))
    (allWS_eq_false ((List.mem_replicate).mpr ⟨by decide, rfl⟩) (by decide))
    (allWS_eq_false ((List.mem_replicate).mpr ⟨by decide, rfl⟩) (by decide))

/-- C7 fails as stated: on three 900-character paragraphs the two chunk
lengths are 1802 and 901 (trailing separator spaces included), not 1800
and 900. -/
theorem c7_counterexample :
    (chunkChapter (Chapter.mk (("T").data) (List.replicate 900 'a' ++ '\n' ::
        (List.replicate 900 'b' ++ '\n' :: List.replicate 900 'c')))).map
        (fun c => c.1.length) = [1802, 901] ∧
    (chunkChapter (Chapter.mk (("T").data) (List.replicate 900 'a' ++ '\n' ::
        (List.replicate 900 'b' ++ '\n' :: List.replicate 900 'c')))).map
        (fun c => c.1.length) ≠ [1800, 900] := by
  have hmain := chunkChapter_three900 (("T").data)
    (List.replicate 900 'a') (List.replicate 900 'b') (List.replicate 900 'c')
    (List.length_replicate 900 'a') (List.length_replicate 900 'b')
    (List.length_replicate 900 'c')
    (fun h => absurd ((List.mem_replicate).mp h).2 (by decide))
    (fun h => absurd ((List.mem_replicate).mp h).2 (by decide))
    (fun h => absurd ((List.mem_replicate).mp h).2 (by decide))
    (allWS_eq_false ((List.mem_replicate).mpr ⟨by decide, rfl⟩) (by decide))
    (allWS_eq_false ((List.mem_replicate).mpr ⟨by decide, rfl⟩) (by decide))
  rw [hmain]
  simp only [List.map_cons, List.map_nil, List.length_append, List.length_singleton,
    List.length_replicate]
  exact ⟨by decide, by decide⟩

/-! ## C4 -/

theorem runTasksSeq_completed (tc tn n k : Nat) :
    ∀ (ts : List ChunkTask) (completed processed : Nat), completed ≤ k →
      (runTasksSeq tc tn n (some k) ts completed processed).2.1 =
        min (completed + ts.length) k := by
  intro ts
  induction ts with
  | nil =>
    intro completed processed hck
    simp only [runTasksSeq, List.length_nil]
    omega
  | cons t ts ih =>
    intro completed processed hck
    by_cases hk : k ≤ completed
    · rw [runTasksSeq, if_pos (by simp [signalAbortedAt, hk])]
      rw [ih completed processed hck]
      simp only [List.length_cons]
      omega
    · rw [runTasksSeq, if_neg (by simp [signalAbortedAt, hk])]
      dsimp only
      rw [ih (completed + 1) (processed + t.text.length) (by omega)]
      simp only [List.length_cons]
      omega

theorem runTasksSeq_length (tc tn n k : Nat) :
    ∀ (ts : List ChunkTask) (completed processed : Nat), completed ≤ k →
      (runTasksSeq tc tn n (some k) ts completed processed).1.length =
        min (completed + ts.length) k - completed := by
  intro ts
  induction ts with
  | nil =>
    intro completed processed hck
    simp only [runTasksSeq, List.length_nil]
    omega
  | cons t ts ih =>
    intro completed processed hck
    by_cases hk : k ≤ completed
    · rw [runTasksSeq, if_pos (by simp [signalAbortedAt, hk])]
      rw [ih completed processed hck]
      simp only [List.length_cons]
      omega
    · rw [runTasksSeq, if_neg (by simp [signalAbortedAt, hk])]
      dsimp only
      rw [List.length_cons, ih (completed + 1) (processed + t.text.length) (by omega)]
      simp only [List.length_cons]
      omega

theorem runTasksSeq_events (tc tn n : Nat) (ab : Option Nat) :
    ∀ (ts : List ChunkTask) (completed processed : Nat),
      ∀ e ∈ (runTasksSeq tc tn n ab ts completed processed).1,
        isResultEvent e = false ∧ isErrorEvent e = false ∧ totalCharsOf e = some tn := by
  intro ts
  induction ts with
  | nil =>
    intro completed processed e he
    simp [runTasksSeq] at he
  | cons t ts ih =>
    intro completed processed e he
    rw [runTasksSeq] at he
    split at he
    · exact ih _ _ e he
    · dsimp only at he
      rcases List.mem_cons.mp he with h | h
      · subst h
        exact ⟨rfl, rfl, rfl⟩
      · exact ih _ _ e h

/-- C4 as amended: whenever the cancellation signal is observed during a
job, the stream terminates with a terminal `error` event and without a
`result` event, and no artifact is returned -- the code does not
distinguish the aborted stop from a failure in the emitted events.  The
message of that error event depends on where the abort is observed:
Generation aborted when a not-yet-started task skips or the post-dispatch
signal check throws (observation after any k completions, k up to the
task count), and the axios message canceled when the signal fires while a
synthesis network call is in flight (after m completions with at least
one task still outstanding); in either case exactly the already-completed
tasks have emitted progress events before the terminal error. -/
theorem c4_abort_emits_error (chapters : List Chapter) (k m : Nat)
    (hk : k ≤ (buildChunks chapters).length) (hm : m < (buildChunks chapters).length) :
    ((handlerEvents chapters (some k)).getLast? = some (JobEvent.error abortMsg) ∧
      (handlerEvents chapters (some k)).length = k + 1 ∧
      (∀ e ∈ handlerEvents chapters (some k), isResultEvent e = false)) ∧
    ((handlerEventsInFlightAbort chapters m).getLast? = some (JobEvent.error canceledMsg) ∧
      (handlerEventsInFlightAbort chapters m).length = m + 1 ∧
      (∀ e ∈ handlerEventsInFlightAbort chapters m, isResultEvent e = false)) := by
  constructor
  · have hfin := runTasksSeq_completed chapters.length (totalCharactersOf chapters)
      (buildChunks chapters).length k (buildChunks chapters) 0 0 (Nat.zero_le k)
    have hfin' : (runTasksSeq chapters.length (totalCharactersOf chapters)
        (buildChunks chapters).length (some k) (buildChunks chapters) 0 0).2.1 = k := by
      rw [hfin]
      omega
    have hlen := runTasksSeq_length chapters.length (totalCharactersOf chapters)
      (buildChunks chapters).length k (buildChunks chapters) 0 0 (Nat.zero_le k)
    rw [handlerEvents]
    rw [hfin', if_pos (by simp [signalAbortedAt])]
    refine ⟨List.getLast?_concat _, ?_, ?_⟩
    · rw [List.length_append, hlen]
      simp only [List.length_singleton]
      omega
    · intro e he
      rcases List.mem_append.mp he with h | h
      · exact (runTasksSeq_events chapters.length (totalCharactersOf chapters)
          (buildChunks chapters).length (some k) (buildChunks chapters) 0 0 e h).1
      · rw [List.mem_singleton.mp h]
        rfl
  · have hlen := runTasksSeq_length chapters.length (totalCharactersOf chapters)
      (buildChunks chapters).length m (buildChunks chapters) 0 0 (Nat.zero_le m)
    rw [handlerEventsInFlightAbort]
    refine ⟨List.getLast?_concat _, ?_, ?_⟩
    · rw [List.length_append, hlen]
      simp only [List.length_singleton]
      omega
    · intro e he
      rcases List.mem_append.mp he with h | h
      · exact (runTasksSeq_events chapters.length (totalCharactersOf chapters)
          (buildChunks chapters).length (some m) (buildChunks chapters) 0 0 e h).1
      · rw [List.mem_singleton.mp h]
        rfl

/-- Witness for C4: a one-chunk job, once with the signal observed after
that chunk completed (message Generation aborted at the final check) and
once with the signal firing while the chunk's network call is in flight
(message canceled). -/
theorem c4_abort_emits_error_witness :
    ((handlerEvents [Chapter.mk (("T").data) (("a").data)] (some 1)).getLast? =
        some (JobEvent.error abortMsg) ∧
      (handlerEvents [Chapter.mk (("T").data) (("a").data)] (some 1)).length = 1 + 1 ∧
      (∀ e ∈ handlerEvents [Chapter.mk (("T").data) (("a").data)] (some 1),
        isResultEvent e = false)) ∧
    ((handlerEventsInFlightAbort [Chapter.mk (("T").data) (("a").data)] 0).getLast? =
        some (JobEvent.error canceledMsg) ∧
      (handlerEventsInFlightAbort [Chapter.mk (("T").data) (("a").data)] 0).length = 0 + 1 ∧
      (∀ e ∈ handlerEventsInFlightAbort [Chapter.mk (("T").data) (("a").data)] 0,
        isResultEvent e = false)) :=
  c4_abort_emits_error [Chapter.mk (("T").data) (("a").data)] 1 0 (by decide) (by decide)

/-- C4 fails as stated: when cancellation is observed before any task
starts, the stream does end without a `result` event, but it ends with an
`error` event (message Generation aborted), contradicting the claim that
no error event is emitted. -/
theorem c4_counterexample :
    (handlerEvents [Chapter.mk (("T").data) (("a").data)] (some 0)).any isErrorEvent = true ∧
    (handlerEvents [Chapter.mk (("T").data) (("a").data)] (some 0)).any isResultEvent = false := by
  decide

/-! ## C9 -/

theorem runTasksSeq_processedValues (tc tn n : Nat) :
    ∀ (ts : List ChunkTask) (completed processed : Nat),
      processedValues (runTasksSeq tc tn n none ts completed processed).1 =
        partialSumsAux (ts.map (fun t => t.text.length)) processed := by
  intro ts
  induction ts with
  | nil =>
    intro completed processed
    simp [runTasksSeq, processedValues, partialSumsAux]
  | cons t ts ih =>
    intro completed processed
    rw [runTasksSeq, if_neg (by simp [signalAbortedAt])]
    dsimp only
    simp only [processedValues] at ih ⊢
    rw [List.filterMap_cons]
    simp only [processedOf]
    rw [List.map_cons, partialSumsAux]
    rw [ih (completed + 1) (processed + t.text.length)]

/-- C9: in every run (whatever the abort point), every progress event
reports totalCharacters as the sum of the raw chapter text lengths
(whitespace-only chapters included), while the processedCharacters
values are the running partial sums of the chunk text lengths
(paragraphs re-joined with an added trailing space each); on the
concrete two-chapter input "a\nb" plus a whitespace-only chapter, every
event reports totalCharacters 6 while the final processedCharacters is 4,
so the two never meet even after all chunks complete. -/
theorem c9_characters_accounting :
    (∀ (chapters : List Chapter) (abortAfter : Option Nat),
      ((handlerEvents chapters abortAfter).filterMap totalCharsOf).all
        (fun m => m == totalCharactersOf chapters) = true) ∧
    (∀ chapters : List Chapter,
      processedValues (handlerEvents chapters none) =
        partialSums ((buildChunks chapters).map (fun t => t.text.length))) ∧
    ((handlerEvents [Chapter.mk (("T").data) (("a\nb").data),
        Chapter.mk (("U").data) (("   ").data)] none).filterMap totalCharsOf = [6] ∧
      processedValues (handlerEvents [Chapter.mk (("T").data) (("a\nb").data),
        Chapter.mk (("U").data) (("   ").data)] none) = [4] ∧
      (4 : Nat) ≠ 6) := by
  refine ⟨?_, ?_, by decide, by decide, by decide⟩
  · intro chapters abortAfter
    rw [List.all_eq_true]
    intro m hm
    rw [List.mem_filterMap] at hm
    obtain ⟨e, he, hfe⟩ := hm
    rw [handlerEvents] at he
    have hrun : e ∈ (runTasksSeq chapters.length (totalCharactersOf chapters)
        (buildChunks chapters).length abortAfter (buildChunks chapters) 0 0).1 := by
      split at he
      · rcases List.mem_append.mp he with h | h
        · exact h
        · rw [List.mem_singleton.mp h] at hfe
          exact absurd hfe (by simp [totalCharsOf])
      · rcases List.mem_append.mp he with h | h
        · exact h
        · rcases List.mem_cons.mp h with h1 | h1
          · rw [h1] at hfe
            exact absurd hfe (by simp [totalCharsOf])
          · rw [List.mem_singleton.mp h1] at hfe
            exact absurd hfe (by simp [totalCharsOf])
    have htc := (runTasksSeq_events chapters.length (totalCharactersOf chapters)
      (buildChunks chapters).length abortAfter (buildChunks chapters) 0 0 e hrun).2.2
    rw [hfe] at htc
    simp only [Option.some_inj] at htc
    simp [htc]
  · intro chapters
    rw [handlerEvents, if_neg (by simp [signalAbortedAt])]
    rw [processedValues, List.filterMap_append]
    have h2 : List.filterMap processedOf [JobEvent.status mergeMsg, JobEvent.result true] =
        [] := rfl
    rw [h2, List.append_nil]
    exact runTasksSeq_processedValues chapters.length (totalCharactersOf chapters)
      (buildChunks chapters).length (buildChunks chapters) 0 0

/-! ## C3 -/

theorem runTasksSeq_progressValues (tc tn n : Nat) :
    ∀ (ts : List ChunkTask) (completed processed : Nat),
      progressValues (runTasksSeq tc tn n none ts completed processed).1 =
        (List.range ts.length).map
          (fun i => jsRound (((completed + i + 1 : Nat) : ℚ) / (n : ℚ) * 100)) := by
  intro ts
  induction ts with
  | nil =>
    intro c p
    simp [runTasksSeq, progressValues]
  | cons t ts ih =>
    intro c p
    rw [runTasksSeq, if_neg (by simp [signalAbortedAt])]
    dsimp only
    simp only [progressValues] at ih ⊢
    rw [List.filterMap_cons]
    simp only [progressPctOf]
    rw [ih (c + 1) (p + t.text.length)]
    rw [List.length_cons, List.range_succ_eq_map, List.map_cons, List.map_map]
    refine congrArg₂ List.cons rfl ?_
    refine List.map_congr_left ?_
    intro i _
    simp only [Function.comp_apply]
    have he : c + 1 + i + 1 = c + (i + 1) + 1 := by omega
    rw [he]

theorem handlerEvents_progressValues (chapters : List Chapter) :
    progressValues (handlerEvents chapters none) =
      (List.range (buildChunks chapters).length).map
        (fun i => jsRound (((i + 1 : Nat) : ℚ) /
          ((buildChunks chapters).length : ℚ) * 100)) := by
  have h := runTasksSeq_progressValues chapters.length (totalCharactersOf chapters)
    (buildChunks chapters).length (buildChunks chapters) 0 0
  simp only [Nat.zero_add] at h
  rw [handlerEvents, if_neg (by simp [signalAbortedAt])]
  simp only [progressValues, List.filterMap_append] at h ⊢
  rw [h]
  have h2 : List.filterMap progressPctOf [JobEvent.status mergeMsg, JobEvent.result true] =
      [] := rfl
  rw [h2, List.append_nil]

theorem jsRound_eq_100_iff (m n : Nat) (hm : 1 ≤ m) (hmn : m ≤ n) :
    jsRound ((m : ℚ) / (n : ℚ) * 100) = 100 ↔ 199 * n ≤ 200 * m := by
  have hn : 0 < n := Nat.lt_of_lt_of_le hm hmn
  have hnq : (0 : ℚ) < (n : ℚ) := by exact_mod_cast hn
  have hmq : (m : ℚ) ≤ (n : ℚ) := by exact_mod_cast hmn
  rw [jsRound, Int.floor_eq_iff]
  have hdiv : (m : ℚ) / (n : ℚ) * 100 = 100 * (m : ℚ) / (n : ℚ) := by ring
  rw [hdiv]
  constructor
  · rintro ⟨h1, -⟩
    have h1' : (100 : ℚ) - 1 / 2 ≤ 100 * (m : ℚ) / (n : ℚ) := by
      push_cast at h1 ⊢
      linarith
    rw [le_div_iff₀ hnq] at h1'
    have : (199 : ℚ) * n ≤ 200 * m := by linarith
    exact_mod_cast this
  · intro h
    have hq : (199 : ℚ) * n ≤ 200 * m := by exact_mod_cast h
    have hle : (100 : ℚ) - 1 / 2 ≤ 100 * (m : ℚ) / (n : ℚ) := by
      rw [le_div_iff₀ hnq]
      linarith
    have hub : 100 * (m : ℚ) / (n : ℚ) ≤ 100 := by
      rw [div_le_iff₀ hnq]
      linarith
    constructor
    · push_cast
      linarith
    · push_cast
      linarith

theorem jsRound_mono {q r : ℚ} (h : q ≤ r) : jsRound q ≤ jsRound r :=
  Int.floor_le_floor (by linarith)

/-- C3 as amended: each emitted progress value is
Math.round of completedChunks over totalChunks times 100, and these
values are monotonically non-decreasing across the event stream; a value
of exactly 100, however, is emitted at the j-th completion precisely when
199 times the chunk count is at most 200 times j, so for jobs with 200 or
more chunks the value 100 already appears before the final chunk
completes (Math.round pushes 99.5 and above up to 100). -/
theorem c3_progress_values (chapters : List Chapter) (i j : Nat)
    (hij : i ≤ j) (hj : j < (buildChunks chapters).length) :
    (progressValues (handlerEvents chapters none)).length = (buildChunks chapters).length ∧
    (progressValues (handlerEvents chapters none)).getD j 0 =
      jsRound (((j + 1 : Nat) : ℚ) / ((buildChunks chapters).length : ℚ) * 100) ∧
    (progressValues (handlerEvents chapters none)).getD i 0 ≤
      (progressValues (handlerEvents chapters none)).getD j 0 ∧
    ((progressValues (handlerEvents chapters none)).getD j 0 = 100 ↔
      199 * (buildChunks chapters).length ≤ 200 * (j + 1)) := by
  have hv := handlerEvents_progressValues chapters
  have hlen : (progressValues (handlerEvents chapters none)).length =
      (buildChunks chapters).length := by
    rw [hv]
    simp
  have hgetD : ∀ k, k < (buildChunks chapters).length →
      (progressValues (handlerEvents chapters none)).getD k 0 =
        jsRound (((k + 1 : Nat) : ℚ) / ((buildChunks chapters).length : ℚ) * 100) := by
    intro k hk
    rw [hv, List.getD_eq_getElem _ _ (by simp [hk]), List.getElem_map, List.getElem_range]
  refine ⟨hlen, hgetD j hj, ?_, ?_⟩
  · rw [hgetD i (lt_of_le_of_lt hij hj), hgetD j hj]
    apply jsRound_mono
    have hc : ((i + 1 : Nat) : ℚ) ≤ ((j + 1 : Nat) : ℚ) := by
      exact_mod_cast Nat.succ_le_succ hij
    have hn0 : (0 : ℚ) ≤ ((buildChunks chapters).length : ℚ) := by positivity
    gcongr
  · rw [hgetD j hj]
    exact jsRound_eq_100_iff (j + 1) (buildChunks chapters).length (by omega) (by omega)

/-- Witness for C3 on a one-chunk job. -/
theorem c3_progress_values_witness :
    (progressValues (handlerEvents [Chapter.mk (("T").data) (("a").data)] none)).length =
      (buildChunks [Chapter.mk (("T").data) (("a").data)]).length ∧
    (progressValues (handlerEvents [Chapter.mk (("T").data) (("a").data)] none)).getD 0 0 =
      jsRound (((0 + 1 : Nat) : ℚ) /
        ((buildChunks [Chapter.mk (("T").data) (("a").data)]).length : ℚ) * 100) ∧
    (progressValues (handlerEvents [Chapter.mk (("T").data) (("a").data)] none)).getD 0 0 ≤
      (progressValues (handlerEvents [Chapter.mk (("T").data) (("a").data)] none)).getD 0 0 ∧
    ((progressValues (handlerEvents [Chapter.mk (("T").data) (("a").data)] none)).getD 0 0 =
        100 ↔
      199 * (buildChunks [Chapter.mk (("T").data) (("a").data)]).length ≤ 200 * (0 + 1)) :=
  c3_progress_values [Chapter.mk (("T").data) (("a").data)] 0 0 (Nat.le_refl 0) (by decide)

set_option maxRecDepth 40000 in
/-- C3 fails as stated: in a job of 200 one-chunk chapters, the 199th
completion (stream position 198, not the final position 199) already
emits the progress value 100. -/
theorem c3_counterexample :
    (progressValues (handlerEvents (List.replicate 200 (Chapter.mk (("T").data) (("a").data)))
        none)).length = 200 ∧
    (progressValues (handlerEvents (List.replicate 200 (Chapter.mk (("T").data) (("a").data)))
        none)).getD 198 0 = 100 ∧
    (198 : Nat) ≠ 200 - 1 := by
  have hn : (buildChunks (List.replicate 200 (Chapter.mk (("T").data) (("a").data)))).length
      = 200 := by decide
  have hv := handlerEvents_progressValues
    (List.replicate 200 (Chapter.mk (("T").data) (("a").data)))
  rw [hn] at hv
  refine ⟨by rw [hv]; simp, ?_, by omega⟩
  rw [hv, List.getD_eq_getElem _ _ (by simp), List.getElem_map, List.getElem_range]
  norm_num [jsRound]

/-! ## C6 -/

theorem natDecimalAux_lt10 (fuel n : Nat) (hf : 1 ≤ fuel) (hn : n < 10) :
    natDecimalAux fuel n = [Nat.digitChar n] := by
  cases fuel with
  | zero => omega
  | succ f => rw [natDecimalAux, if_pos hn]

theorem natDecimal_lt10 (n : Nat) (hn : n < 10) :
    natDecimal n = [Nat.digitChar n] :=
  natDecimalAux_lt10 (n + 1) n (by omega) hn

theorem natDecimalAux_lt100 (fuel n : Nat) (hf : 2 ≤ fuel) (h1 : 10 ≤ n) (h2 : n < 100) :
    natDecimalAux fuel n = [Nat.digitChar (n / 10), Nat.digitChar (n % 10)] := by
  cases fuel with
  | zero => omega
  | succ f =>
    rw [natDecimalAux, if_neg (by omega)]
    rw [natDecimalAux_lt10 f (n / 10) (by omega) (by omega)]
    rfl

theorem natDecimalAux_lt1000 (fuel n : Nat) (hf : 3 ≤ fuel) (h1 : 100 ≤ n) (h2 : n < 1000) :
    natDecimalAux fuel n =
      [Nat.digitChar (n / 100), Nat.digitChar (n / 10 % 10), Nat.digitChar (n % 10)] := by
  cases fuel with
  | zero => omega
  | succ f =>
    rw [natDecimalAux, if_neg (by omega)]
    rw [natDecimalAux_lt100 f (n / 10) (by omega) (by omega) (by omega)]
    have hd : n / 10 / 10 = n / 100 := by omega
    rw [hd]
    rfl

theorem natDecimal_pad3 (n : Nat) (hn : n ≤ 999) :
    padStart3 (natDecimal n) =
      [Nat.digitChar (n / 100), Nat.digitChar (n / 10 % 10), Nat.digitChar (n % 10)] := by
  rcases Nat.lt_or_ge n 10 with h | h
  · rw [natDecimal, natDecimalAux_lt10 (n + 1) n (by omega) h, padStart3]
    have e1 : n / 100 = 0 := by omega
    have e2 : n / 10 % 10 = 0 := by omega
    have e3 : n % 10 = n := by omega
    rw [e1, e2, e3]
    rfl
  · rcases Nat.lt_or_ge n 100 with h' | h'
    · rw [natDecimal, natDecimalAux_lt100 (n + 1) n (by omega) h h', padStart3]
      have e1 : n / 100 = 0 := by omega
      have e2 : n / 10 % 10 = n / 10 := by omega
      rw [e1, e2]
      rfl
    · rw [natDecimal, natDecimalAux_lt1000 (n + 1) n (by omega) h' (by omega), padStart3]
      rfl

theorem pad3_length (n : Nat) (hn : n ≤ 999) : (padStart3 (natDecimal n)).length = 3 := by
  rw [natDecimal_pad3 n hn]
  rfl

theorem digitChar_lt {a b : Nat} (hb : b < 10) (hab : a < b) :
    Nat.digitChar a < Nat.digitChar b := by
  have ha : a < 9 + 1 := by omega
  interval_cases b <;> interval_cases a <;> decide

theorem strLtB_cons_same (c : Char) (l1 l2 : List Char) :
    strLtB (c :: l1) (c :: l2) = strLtB l1 l2 := by
  rw [strLtB, if_neg (lt_irrefl c), if_neg (lt_irrefl c)]

theorem strLtB_append_same (xs : List Char) :
    ∀ cs ds, strLtB cs ds = true → strLtB (xs ++ cs) (xs ++ ds) = true := by
  induction xs with
  | nil =>
    intro cs ds h
    simpa using h
  | cons a xs ih =>
    intro cs ds h
    rw [List.cons_append, List.cons_append, strLtB_cons_same]
    exact ih cs ds h

theorem strLtB_append_lt : ∀ (xs ys cs ds : List Char),
    xs.length = ys.length → strLtB xs ys = true →
    strLtB (xs ++ cs) (ys ++ ds) = true := by
  intro xs
  induction xs with
  | nil =>
    intro ys cs ds hlen h
    cases ys with
    | nil => exact absurd h (by rw [strLtB]; simp)
    | cons b ys => simp at hlen
  | cons a xs ih =>
    intro ys cs ds hlen h
    cases ys with
    | nil => simp at hlen
    | cons b ys =>
      rw [List.cons_append, List.cons_append, strLtB]
      rw [strLtB] at h
      by_cases hab : a < b
      · rw [if_pos hab]
      · rw [if_neg hab] at h ⊢
        by_cases hba : b < a
        · rw [if_pos hba] at h
          exact absurd h (by simp)
        · rw [if_neg hba] at h ⊢
          exact ih ys cs ds (by simpa using hlen) h

theorem pad3_lt {a b : Nat} (hb : b ≤ 999) (hab : a < b) :
    strLtB (padStart3 (natDecimal a)) (padStart3 (natDecimal b)) = true := by
  have ha : a ≤ 999 := by omega
  rw [natDecimal_pad3 a ha, natDecimal_pad3 b hb]
  have hb100 : b / 100 < 10 := by omega
  have hdiv1 : a / 100 ≤ b / 100 := Nat.div_le_div_right (by omega)
  rcases eq_or_lt_of_le hdiv1 with h1 | h1
  · rw [h1]
    rw [strLtB_cons_same]
    have hdiv2 : a / 10 % 10 ≤ b / 10 % 10 := by omega
    rcases eq_or_lt_of_le hdiv2 with h2 | h2
    · rw [h2, strLtB_cons_same]
      have h3 : a % 10 < b % 10 := by omega
      rw [strLtB, if_pos (digitChar_lt (by omega) h3)]
    · rw [strLtB, if_pos (digitChar_lt (by omega) h2)]
  · rw [strLtB, if_pos (digitChar_lt hb100 h1)]

/-- C6 as amended: for two chunk tasks of one job in playback order
(smaller chapter index first; within one chapter -- hence with the same
chapter title -- smaller chunk index first), the derived artifact
filenames sort lexically in the same order, provided both chapter
indexes are at most 999 (the zero-padding width) and both chunk indexes
are at most 9 (a single unpadded decimal digit); beyond those bounds the
decimal components break the lexical order. -/
theorem c6_filename_order (t1 t2 : ChunkTask)
    (h1 : t1.chapterIndex ≤ 999) (h2 : t2.chapterIndex ≤ 999)
    (k1 : t1.chunkIndex ≤ 9) (k2 : t2.chunkIndex ≤ 9)
    (horder : t1.chapterIndex < t2.chapterIndex ∨
      (t1.chapterIndex = t2.chapterIndex ∧ t1.chapterTitle = t2.chapterTitle ∧
        t1.chunkIndex < t2.chunkIndex)) :
    strLtB (chunkFilename t1) (chunkFilename t2) = true := by
  rw [chunkFilename, chunkFilename]
  simp only [List.append_assoc, List.cons_append]
  rcases horder with hlt | ⟨hci, hti, hki⟩
  · exact strLtB_append_lt _ _ _ _
      (by rw [pad3_length _ h1, pad3_length _ h2]) (pad3_lt h2 hlt)
  · rw [hci, hti]
    apply strLtB_append_same
    rw [strLtB_cons_same]
    apply strLtB_append_same
    apply strLtB_append_same
    rw [natDecimal_lt10 t1.chunkIndex (by omega), natDecimal_lt10 t2.chunkIndex (by omega)]
    exact strLtB_append_lt _ _ _ _ rfl
      (by rw [strLtB, if_pos (digitChar_lt (by omega) hki)])

/-- Witness for C6: two chunks of chapter 7 of one book. -/
theorem c6_filename_order_witness :
    strLtB (chunkFilename (ChunkTask.mk (("x ").data) (("My Book").data) 7 0))
      (chunkFilename (ChunkTask.mk (("y ").data) (("My Book").data) 7 1)) = true :=
  c6_filename_order (ChunkTask.mk (("x ").data) (("My Book").data) 7 0)
    (ChunkTask.mk (("y ").data) (("My Book").data) 7 1)
    (by decide) (by decide) (by decide) (by decide)
    (Or.inr ⟨rfl, rfl, by decide⟩)

set_option maxRecDepth 400000 in
/-- C6 fails as stated: in a job with 1001 chapters (999 of them empty,
which still advance the chapter counter), the two produced tasks carry
chapter indexes 999 and 1000, in this playback order, yet the filename of
the second does not sort after the first -- padStart pads only to three
digits, and the string 1000... sorts before 999... lexically. -/
theorem c6_counterexample :
    ((buildChunks (List.replicate 999 (Chapter.mk (("t").data) ([]))
        ++ [Chapter.mk (("t").data) (("a").data), Chapter.mk (("t").data) (("b").data)])).map
      (fun t => t.chapterIndex) = [999, 1000]) ∧
    strLtB
      (chunkFilename ((buildChunks (List.replicate 999 (Chapter.mk (("t").data) ([]))
        ++ [Chapter.mk (("t").data) (("a").data),
          Chapter.mk (("t").data) (("b").data)])).getD 0 default))
      (chunkFilename ((buildChunks (List.replicate 999 (Chapter.mk (("t").data) ([]))
        ++ [Chapter.mk (("t").data) (("a").data),
          Chapter.mk (("t").data) (("b").data)])).getD 1 default)) = false := by
  decide

/-! ## C8 -/

theorem dispatch_inv_init (n : Nat) : DispatchInv n (initDispatch n) := by
  refine ⟨by simp [initDispatch], by simp [initDispatch], ?_, ?_, ?_, ?_⟩
  · intro i _
    rfl
  · intro i hi
    simp [initDispatch] at hi
  · intro i hi
    simp [initDispatch] at hi
  · intro i _ _ _
    rfl

theorem dispatch_inv_step {n : Nat} {s s' : DispatchState}
    (hinv : DispatchInv n s) (hstep : DispatchStep 4 s s') : DispatchInv n s' := by
  obtain ⟨hrun, hperm, hq, hr, hf, hout⟩ := hinv
  cases hstep with
  | start i rest hqeq hlt =>
    have hnodup : (s.queued ++ s.running ++ s.finished).Nodup :=
      hperm.nodup_iff.mpr (List.nodup_range n)
    rw [hqeq] at hnodup
    simp only [List.cons_append, List.nodup_cons, List.mem_append] at hnodup
    have hir : i ∉ s.running := fun h => hnodup.1 (Or.inl (Or.inr h))
    have hif : i ∉ s.finished := fun h => hnodup.1 (Or.inr h)
    have hirest : i ∉ rest := fun h => hnodup.1 (Or.inl (Or.inl h))
    have hperm' : (rest ++ (i :: s.running) ++ s.finished).Perm (List.range n) := by
      refine List.Perm.trans ?_ hperm
      rw [hqeq]
      simp only [List.cons_append, List.append_assoc]
      exact List.perm_middle
    refine ⟨?_, hperm', ?_, ?_, ?_, ?_⟩
    · simp only [List.length_cons]
      omega
    · intro j hj
      simp only
      rw [if_neg (fun (h : j = i) => hirest (h ▸ hj))]
      exact hq j (hqeq ▸ List.mem_cons_of_mem i hj)
    · intro j hj
      simp only
      rcases List.mem_cons.mp hj with h | h
      · subst h
        rw [if_pos rfl, hq j (hqeq ▸ List.mem_cons_self j rest)]
      · rw [if_neg (fun (he : j = i) => hir (he ▸ h))]
        exact hr j h
    · intro j hj
      simp only
      rw [if_neg (fun (he : j = i) => hif (he ▸ hj))]
      exact hf j hj
    · intro j hj1 hj2 hj3
      simp only at hj1 hj2 hj3 ⊢
      have hji : j ≠ i := fun he => hj2 (he ▸ List.mem_cons_self i s.running)
      rw [if_neg hji]
      refine hout j ?_ (fun h => hj2 (List.mem_cons_of_mem i h)) hj3
      rw [hqeq]
      intro h
      rcases List.mem_cons.mp h with h | h
      · exact hji h
      · exact hj1 h
  | finish i hi =>
    have hperm' : (s.queued ++ s.running.erase i ++ (i :: s.finished)).Perm (List.range n) := by
      refine List.Perm.trans ?_ hperm
      simp only [List.append_assoc]
      refine List.Perm.append_left s.queued ?_
      refine List.Perm.trans List.perm_middle ?_
      exact (((List.perm_cons_erase hi).append_right s.finished).symm)
    refine ⟨?_, hperm', ?_, ?_, ?_, ?_⟩
    · simp only
      exact le_trans (List.erase_sublist i s.running).length_le hrun
    · intro j hj
      exact hq j hj
    · intro j hj
      exact hr j (List.mem_of_mem_erase hj)
    · intro j hj
      rcases List.mem_cons.mp hj with h | h
      · subst h
        exact hr j hi
      · exact hf j h
    · intro j hj1 hj2 hj3
      simp only at hj1 hj2 hj3 ⊢
      have hji : j ≠ i := fun he => hj3 (he ▸ List.mem_cons_self i s.finished)
      refine hout j hj1 ?_ (fun h => hj3 (List.mem_cons_of_mem i h))
      intro h
      have : j ∈ i :: s.running.erase i := (List.perm_cons_erase hi).mem_iff.mp h
      rcases List.mem_cons.mp this with h' | h'
      · exact hji h'
      · exact hj2 h'

theorem dispatch_reachable_inv {n : Nat} {s : DispatchState}
    (h : DispatchReachable n s) : DispatchInv n s := by
  rw [DispatchReachable] at h
  induction h with
  | refl => exact dispatch_inv_init n
  | tail hsteps hstep ih => exact dispatch_inv_step ih hstep

/-- C8: along every execution trace of the concurrency-limited
dispatcher (p-limit with limit 4, scheduling semantics modelled from the
spec), at most 4 tasks are running at any instant, no task's synthesis
call is made more than once, and when the queue and the running set are
both empty every task index below n has had its synthesis call made
exactly once. -/
theorem c8_concurrency_limit (n : Nat) (s : DispatchState) (h : DispatchReachable n s) :
    s.running.length ≤ 4 ∧
    (∀ i, s.calls i ≤ 1) ∧
    (s.queued = [] → s.running = [] → ∀ i, i < n → s.calls i = 1) := by
  obtain ⟨hrun, hperm, hq, hr, hf, hout⟩ := dispatch_reachable_inv h
  refine ⟨hrun, ?_, ?_⟩
  · intro i
    by_cases h1 : i ∈ s.queued
    · rw [hq i h1]
      omega
    · by_cases h2 : i ∈ s.running
      · rw [hr i h2]
      · by_cases h3 : i ∈ s.finished
        · rw [hf i h3]
        · rw [hout i h1 h2 h3]
          omega
  · intro hqe hre i hin
    have hmem : i ∈ s.queued ++ s.running ++ s.finished :=
      hperm.symm.mem_iff.mp (List.mem_range.mpr hin)
    rw [hqe, hre] at hmem
    simp only [List.nil_append] at hmem
    exact hf i hmem

/-- Witness for C8: the state reached from two queued tasks after
starting the first one. -/
theorem c8_concurrency_limit_witness :
    (DispatchState.mk [1] (0 :: (initDispatch 2).running) (initDispatch 2).finished
        (fun j => if j = 0 then (initDispatch 2).calls j + 1
          else (initDispatch 2).calls j)).running.length ≤ 4 ∧
    (∀ i, (DispatchState.mk [1] (0 :: (initDispatch 2).running) (initDispatch 2).finished
        (fun j => if j = 0 then (initDispatch 2).calls j + 1
          else (initDispatch 2).calls j)).calls i ≤ 1) ∧
    ((DispatchState.mk [1] (0 :: (initDispatch 2).running) (initDispatch 2).finished
        (fun j => if j = 0 then (initDispatch 2).calls j + 1
          else (initDispatch 2).calls j)).queued = [] →
      (DispatchState.mk [1] (0 :: (initDispatch 2).running) (initDispatch 2).finished
        (fun j => if j = 0 then (initDispatch 2).calls j + 1
          else (initDispatch 2).calls j)).running = [] →
      ∀ i, i < 2 →
        (DispatchState.mk [1] (0 :: (initDispatch 2).running) (initDispatch 2).finished
          (fun j => if j = 0 then (initDispatch 2).calls j + 1
            else (initDispatch 2).calls j)).calls i = 1) :=
  c8_concurrency_limit 2 _ (Relation.ReflTransGen.tail Relation.ReflTransGen.refl
    (DispatchStep.start (initDispatch 2) 0 [1] (by decide) (by decide)))
